import Mathlib

/-!
Verification development for the validation core of the healthcare-newsletter
repository (`security_utils.py`).  The Python functions are shallowly embedded
as executable Lean definitions: strings are `String`/`List Char`, the two
`re` patterns are embedded as a nondeterministic backtracking matcher
(existence of a match), the filesystem and HTTP responses are explicit state
values, and Python exceptions become `Except String`.
-/

namespace NewsletterSec

/-! ## Python string primitives -/

/-- The newline character, `Char.ofNat 10`. -/
def nlChar : Char := Char.ofNat 10

/-- The double-quote character. -/
def dquoteChar : Char := Char.ofNat 34

/-- The apostrophe (single-quote) character. -/
def aposChar : Char := Char.ofNat 39

/-- The backslash character. -/
def bslashChar : Char := Char.ofNat 92

/-- ASCII whitespace, as stripped by Python `str.strip()` (space, tab,
newline, carriage return, vertical tab, form feed). -/
def pySpace (c : Char) : Bool :=
  c = ' ' || c = Char.ofNat 9 || c = nlChar || c = Char.ofNat 13 ||
  c = Char.ofNat 11 || c = Char.ofNat 12

/-- `str.strip()` on a character list: drop whitespace from both ends. -/
def pyStripList (cs : List Char) : List Char :=
  ((cs.dropWhile pySpace).reverse.dropWhile pySpace).reverse

/-- Python `str.strip()`. -/
def pyStrip (s : String) : String := ⟨pyStripList s.data⟩

/-- Python `str.lower()` (ASCII case folding, charwise). -/
def pyLower (s : String) : String := ⟨s.data.map Char.toLower⟩

/-- `pre.isPrefixOf cs` as Python `str.startswith`, on character lists. -/
def listStartsWith : List Char → List Char → Bool
  | [], _ => true
  | _ :: _, [] => false
  | a :: p, b :: t => a = b && listStartsWith p t

/-- Python `s.startswith(pre)`. -/
def pyStartsWith (s pre : String) : Bool := listStartsWith pre.data s.data

/-- UTF-8 byte length, Python `len(content.encode('utf-8'))`. -/
def utf8Len (s : String) : Nat := s.utf8ByteSize

/-! ## A nondeterministic matcher for the two `re` patterns

A matcher takes the remaining input and returns the list of all possible
remainders after consuming a prefix accepted by the pattern piece.  A whole
pattern `^...$` matches when some remainder is empty, or is a single
trailing newline (Python `$` semantics). -/

/-- Matcher type: input ↦ possible remainders. -/
abbrev MT := List Char → List (List Char)

/-- Literal character. -/
def mlit (c : Char) : MT := fun cs =>
  match cs with
  | [] => []
  | b :: t => if b = c then [t] else []

/-- Literal character, case-insensitive (`re.IGNORECASE`). -/
def mlitCI (c : Char) : MT := fun cs =>
  match cs with
  | [] => []
  | b :: t => if b.toLower = c.toLower then [t] else []

/-- Literal string, case-insensitive. -/
def mstrCI : List Char → MT
  | [], cs => [cs]
  | c :: p, cs => (mlitCI c cs).flatMap (mstrCI p)

/-- A single character of a class. -/
def mcls (p : Char → Bool) : MT := fun cs =>
  match cs with
  | [] => []
  | b :: t => if p b then [t] else []

/-- Sequencing of two pattern pieces. -/
def mseq (a b : MT) : MT := fun cs => (a cs).flatMap b

/-- Alternation of two pattern pieces. -/
def malt (a b : MT) : MT := fun cs => a cs ++ b cs

/-- Optional piece (`?`). -/
def mopt (a : MT) : MT := fun cs => cs :: a cs

/-- All remainders after consuming `0..k` leading characters of class `p`,
where `k` is the length of the maximal run. -/
def mrems (p : Char → Bool) : MT
  | [] => [[]]
  | c :: cs => (c :: cs) :: (if p c then mrems p cs else [])

/-- Class repetition `[p]{lo,}`: at least `lo` characters of class `p`. -/
def mclsMin (p : Char → Bool) (lo : Nat) : MT := fun cs =>
  (mrems p cs).filter (fun r => decide (lo + r.length ≤ cs.length))

/-- Class repetition `[p]{lo,hi}`. -/
def mclsRange (p : Char → Bool) (lo hi : Nat) : MT := fun cs =>
  (mrems p cs).filter
    (fun r => decide (lo + r.length ≤ cs.length ∧ cs.length ≤ hi + r.length))

/-- One or more repetitions of a piece (`+`), with explicit fuel; each
iteration of the pieces used here consumes at least one character, so fuel
equal to the input length explores every repetition count. -/
def mrep1 (m : MT) : Nat → MT
  | 0 => m
  | n + 1 => fun cs => (m cs).flatMap (fun r => r :: mrep1 m n r)

/-- Python `$`: end of input, or a single trailing newline. -/
def mend (cs : List Char) : Bool := cs = [] || cs = [nlChar]

/-- Anchored full match `^pattern$` of a matcher against a string. -/
def mMatches (m : MT) (s : String) : Bool := (m s.data).any mend

/-! ## `SecurityValidator` patterns and constants -/

/-- `[a-zA-Z0-9_.-]`, the character class of `SAFE_FILENAME_PATTERN`. -/
def filenameChar (c : Char) : Bool :=
  c.isAlphanum || c = '_' || c = '.' || c = '-'

/-- `SAFE_FILENAME_PATTERN.match`: `^[a-zA-Z0-9_.-]+$`. -/
def safe_filename_match (s : String) : Bool := mMatches (mclsMin filenameChar 1) s

/-- `[a-zA-Z0-9._%+-]`, the local-part class of the email pattern. -/
def emailLocalChar (c : Char) : Bool :=
  c.isAlphanum || c = '.' || c = '_' || c = '%' || c = '+' || c = '-'

/-- `[a-zA-Z0-9.-]`, the domain class of the email pattern. -/
def emailDomainChar (c : Char) : Bool :=
  c.isAlphanum || c = '.' || c = '-'

/-- The email pattern `^[a-zA-Z0-9._%+-]+@[a-zA-Z0-9.-]+\.[a-zA-Z]{2,}$`
as a matcher. -/
def emailMT : MT :=
  mseq (mclsMin emailLocalChar 1)
    (mseq (mlit '@')
      (mseq (mclsMin emailDomainChar 1)
        (mseq (mlit '.') (mclsMin Char.isAlpha 2))))

/-- `email_pattern.match(email)` of `sanitize_email`. -/
def email_pattern_match (s : String) : Bool := mMatches emailMT s

/-- `[A-Z0-9-]` under `re.IGNORECASE` (ASCII). -/
def labelInnerChar (c : Char) : Bool := c.isAlphanum || c = '-'

/-- One domain label `[A-Z0-9](?:[A-Z0-9-]{0,61}[A-Z0-9])?` (IGNORECASE). -/
def urlLabelMT : MT :=
  mseq (mcls Char.isAlphanum)
    (mopt (mseq (mclsRange labelInnerChar 0 61) (mcls Char.isAlphanum)))

/-- A label followed by a literal dot. -/
def urlLabelDotMT : MT := mseq urlLabelMT (mlit '.')

/-- The domain alternative `(?:label\.)+[A-Z]{2,6}\.?` of the URL pattern. -/
def urlDomainMT : MT :=
  mseq (fun cs => mrep1 urlLabelDotMT cs.length cs)
    (mseq (mclsRange Char.isAlpha 2 6) (mopt (mlit '.')))

/-- One IPv4 octet `\d{1,3}`. -/
def urlOctetMT : MT := mclsRange Char.isDigit 1 3

/-- The IPv4 alternative `\d{1,3}\.\d{1,3}\.\d{1,3}\.\d{1,3}`. -/
def urlIpv4MT : MT :=
  mseq urlOctetMT (mseq (mlit '.')
    (mseq urlOctetMT (mseq (mlit '.')
      (mseq urlOctetMT (mseq (mlit '.') urlOctetMT)))))

/-- The host alternation: domain, `localhost`, or IPv4. -/
def urlHostMT : MT :=
  malt urlDomainMT (malt (fun cs => mstrCI ([ 'l', 'o', 'c', 'a', 'l', 'h', 'o', 's', 't' ]) cs) urlIpv4MT)

/-- The optional port `(?::\d+)?`. -/
def urlPortMT : MT := mopt (mseq (mlit ':') (mclsMin Char.isDigit 1))

/-- The tail `(?:/?|[/?]\S+)`: an optional slash, or a slash or question
mark followed by one or more non-whitespace characters. -/
def urlPathMT : MT :=
  malt (mopt (mlit '/'))
    (mseq (mcls (fun c => c = '/' || c = '?')) (mclsMin (fun c => ! pySpace c) 1))

/-- The whole `SAFE_URL_PATTERN`:
`^https?://(domain|localhost|IPv4)(?::\d+)?(?:/?|[/?]\S+)$`, IGNORECASE. -/
def safeUrlMT : MT :=
  mseq (fun cs => mstrCI ([ 'h', 't', 't', 'p' ]) cs)
    (mseq (mopt (mlitCI 's'))
      (mseq (mlit ':') (mseq (mlit '/') (mseq (mlit '/')
        (mseq urlHostMT (mseq urlPortMT urlPathMT))))))

/-- `SAFE_URL_PATTERN.match(url)`. -/
def safe_url_pattern_match (s : String) : Bool := mMatches safeUrlMT s

/-- The validator's `KNOWN_WEBSITE_KEYS` set. -/
def KNOWN_WEBSITE_KEYS : List String :=
  [ "hospitalogy", "healthcareitnews", "fiercehealthcare" ]

/-- `ALLOWED_EXTENSIONS` of `SecurityValidator`. -/
def ALLOWED_EXTENSIONS : List String := [ ".json", ".md", ".txt", ".log" ]

/-- `MAX_CONTENT_SIZE = 10 * 1024 * 1024` bytes. -/
def MAX_CONTENT_SIZE : Nat := 10 * 1024 * 1024

/-- `MAX_CONFIG_SIZE = 1024 * 1024` bytes. -/
def MAX_CONFIG_SIZE : Nat := 1024 * 1024

/-! ## `SecurityValidator` functions -/

/-- `SecurityValidator.validate_url` (`security_utils.py` lines 48-65) on a
string argument: strip, length limit 2000, structural pattern, then the
scheme check `url.startswith('https://') or url.startswith('http://localhost')`. -/
def validate_url (url : String) : Except String String :=
  let u := pyStrip url
  if u.length > 2000 then .error ("URL too long")
  else if ! safe_url_pattern_match u then .error ("Invalid URL format: " ++ u)
  else if ! (pyStartsWith u ("https://") || pyStartsWith u ("http://localhost")) then
    .error ("Only HTTPS URLs are allowed for external sites")
  else .ok u

/-- `'..' in filename`: whether the list has two adjacent dots. -/
def hasDotDot : List Char → Bool
  | [] => false
  | [_] => false
  | a :: b :: t => (a = '.' && b = '.') || hasDotDot (b :: t)

/-- Python `c in s` for a single character. -/
def listHasChar (c : Char) (cs : List Char) : Bool := cs.any (fun b => b = c)

/-- `Path(filename).suffix` for a name with no path separators: the portion
from the last dot, provided that dot is neither the first nor the last
character (the `0 < i < len(name) - 1` rule of `pathlib`). -/
def pySuffix (name : String) : String :=
  let rev := name.data.reverse
  let pre := rev.takeWhile (fun c => c ≠ '.')
  if pre.length = rev.length then ("")
  else if pre.length = 0 then ("")
  else if pre.length + 1 = rev.length then ("")
  else ⟨'.' :: pre.reverse⟩

/-- `SecurityValidator.validate_filename` (lines 67-101).  The final
`resolve().relative_to` filesystem check (only reached when a base directory
is supplied and every string-level check passed) depends on the state of the
file system (symbolic links); its outcome is passed in as the oracle
`resolveInside`. -/
def validate_filename (filename : String) (base_dir : Option String)
    (resolveInside : Bool) : Except String String :=
  let f := pyStrip filename
  if f.data.isEmpty then .error ("Filename cannot be empty")
  else if f.length > 255 then .error ("Filename too long")
  else if hasDotDot f.data || listHasChar '/' f.data || listHasChar bslashChar f.data then
    .error ("Path traversal detected in filename")
  else if ! safe_filename_match f then .error ("Invalid filename format: " ++ f)
  else if ! ALLOWED_EXTENSIONS.contains (pyLower (pySuffix f)) then
    .error ("File extension not allowed: " ++ pyLower (pySuffix f))
  else
    match base_dir with
    | none => .ok f
    | some _ => if resolveInside then .ok f else .error ("Path traversal detected")

/-- A Python value as seen by the validator: a string, a list, a string-keyed
dictionary, or any other object carrying its `str()` representation. -/
inductive PyVal where
  | str : String → PyVal
  | list : List PyVal → PyVal
  | dict : List (String × PyVal) → PyVal
  | other : String → PyVal

/-- Python `str(v)`: the identity on strings, the carried textual
representation otherwise (lists/dicts also carry only their rendering here,
via `other`, since `sanitize_html` never inspects them). -/
def pyStr : PyVal → String
  | .str s => s
  | .list _ => ""
  | .dict _ => ""
  | .other r => r

/-- `html.escape(s, quote=True)`: successive single-character replacements
`& → &amp;`, `< → &lt;`, `> → &gt;`, `" → &quot;`, `' → &#x27;`,
in that order. -/
def replaceChar (c : Char) (rep : List Char) : List Char → List Char
  | [] => []
  | a :: t => (if a = c then rep else [a]) ++ replaceChar c rep t

/-- `html.escape` on a string. -/
def html_escape (s : String) : String :=
  ⟨replaceChar aposChar (String.data ("&#x27;"))
    (replaceChar dquoteChar (String.data ("&quot;"))
      (replaceChar '>' (String.data ("&gt;"))
        (replaceChar '<' (String.data ("&lt;"))
          (replaceChar '&' (String.data ("&amp;")) s.data))))⟩

/-- `SecurityValidator.sanitize_html` (lines 103-110): non-string input is
returned as `str(content)` (the `isinstance` early return); string input is
HTML-escaped. -/
def sanitize_html (content : PyVal) : String :=
  match content with
  | .str s => html_escape s
  | v => pyStr v

/-- `SecurityValidator.sanitize_email` (lines 112-128): strip and lower,
match the email pattern, enforce the RFC 5321 length limit. -/
def sanitize_email (email : String) : Except String String :=
  let e := pyLower (pyStrip email)
  if ! email_pattern_match e then .error ("Invalid email format: " ++ e)
  else if e.length > 254 then .error ("Email address too long")
  else .ok e

/-- `validate_url` applied to an arbitrary Python value: non-strings fail
the `isinstance` check (lines 51-52). -/
def validate_url_py : PyVal → Except String String
  | .str s => validate_url s
  | _ => .error ("URL must be a string")

/-- One iteration of the `websites` loop of `validate_json_config`
(lines 153-157): a string whose stripped, lowered form is a known website
key is appended stripped; anything else goes through `validate_url`. -/
def validate_website_entry (v : PyVal) : Except String PyVal :=
  match v with
  | .str u =>
    if KNOWN_WEBSITE_KEYS.contains (pyLower (pyStrip u)) then .ok (.str (pyStrip u))
    else (validate_url u).map PyVal.str
  | w => (validate_url_py w).map PyVal.str

/-- The `websites` loop over the whole list, stopping at the first failing
entry (the first raised `SecurityError` propagates). -/
def validate_websites : List PyVal → Except String (List PyVal)
  | [] => .ok []
  | v :: rest =>
    match validate_website_entry v with
    | .error e => .error e
    | .ok v2 => (validate_websites rest).map (fun l => v2 :: l)

/-- Dictionary lookup, Python `config_data['websites']` / `in`. -/
def lookupPy (l : List (String × PyVal)) (k : String) : Option PyVal :=
  (l.find? (fun e => e.1 == k)).map Prod.snd

/-- In-place dictionary update `config_data[k] = v`: the value at key `k`
is replaced, every other entry and the key order are untouched. -/
def updateEntry (l : List (String × PyVal)) (k : String) (v : PyVal) :
    List (String × PyVal) :=
  l.map (fun e => if e.1 == k then (k, v) else e)

/-- `SecurityValidator.validate_json_config` (lines 130-160): requires a
dictionary; unknown top-level keys are only logged (a no-op here); when a
`websites` key is present its value must be a list and is replaced, in
place, by the validated list. -/
def validate_json_config (config : PyVal) : Except String PyVal :=
  match config with
  | .dict entries =>
    match lookupPy entries ("websites") with
    | none => .ok (.dict entries)
    | some (.list ws) =>
      match validate_websites ws with
      | .error e => .error e
      | .ok vs => .ok (.dict (updateEntry entries ("websites") (.list vs)))
    | some _ => .error ("Websites must be a list")
  | _ => .error ("Configuration must be a dictionary")

/-! ## `SecureFileHandler` -/

/-- The visible state of the file store: regular files (absolute path ↦
text content) and directories. -/
structure FileSystem where
  files : List (String × String)
  dirs : List String

/-- `SecureFileHandler`: the resolved base directory fixed at construction. -/
structure SecureFileHandler where
  base_dir : String

/-- `self.base_dir / validated_filename`. -/
def joinPath (base name : String) : String := base ++ "/" ++ name

/-- Read a file's content from the store. -/
def lookupFile (fs : FileSystem) (p : String) : Option String :=
  (fs.files.find? (fun e => e.1 == p)).map Prod.snd

/-- The carriage-return character. -/
def crChar : Char := Char.ofNat 13

/-- Universal-newline translation performed by a text-mode
`open(file_path, 'r', encoding='utf-8')` read with the default
`newline=None`: each `\r\n` pair and each lone `\r` becomes `\n`. -/
def univNewlines : List Char → List Char
  | [] => []
  | [c] => if c = crChar then [nlChar] else [c]
  | c :: c2 :: cs =>
    if c = crChar then
      if c2 = nlChar then nlChar :: univNewlines cs
      else nlChar :: univNewlines (c2 :: cs)
    else c :: univNewlines (c2 :: cs)

/-- Python's `max_size or MAX_CONTENT_SIZE`: `None` and the falsy `0` both
fall back to the default. -/
def pyOrDefault (m : Option Nat) (d : Nat) : Nat :=
  match m with
  | none => d
  | some v => if v = 0 then d else v

/-- `SecureFileHandler.safe_read_file` (lines 169-194): validate the
filename against the base directory, require an existing regular file,
enforce the size ceiling on the stored size (`stat().st_size`), then read
in text mode — which applies universal-newline translation.  (OS permission
failures and invalid-UTF-8 contents do not arise in this model: contents
are `String`s.) -/
def safe_read_file (h : SecureFileHandler) (fs : FileSystem) (filename : String)
    (max_size : Option Nat) (resolveInside : Bool) : Except String String :=
  match validate_filename filename (some h.base_dir) resolveInside with
  | .error e => .error e
  | .ok vf =>
    let p := joinPath h.base_dir vf
    match lookupFile fs p with
    | none =>
      if fs.dirs.contains p then .error ("Path is not a file: " ++ filename)
      else .error ("File not found: " ++ filename)
    | some content =>
      if utf8Len content > pyOrDefault max_size MAX_CONTENT_SIZE then
        .error ("File too large: " ++ toString (utf8Len content) ++ " bytes")
      else .ok ⟨univNewlines content.data⟩

/-- `SecureFileHandler.safe_write_file` (lines 196-215): validate the
filename, check the content size, then create the parent directory and
write the file; returns the written absolute path and the new store. -/
def safe_write_file (h : SecureFileHandler) (fs : FileSystem)
    (filename content : String) (max_size : Option Nat) (resolveInside : Bool) :
    Except String String × FileSystem :=
  match validate_filename filename (some h.base_dir) resolveInside with
  | .error e => (.error e, fs)
  | .ok vf =>
    let p := joinPath h.base_dir vf
    if utf8Len content > pyOrDefault max_size MAX_CONTENT_SIZE then
      (.error ("Content too large: " ++ toString (utf8Len content) ++ " bytes"), fs)
    else
      (.ok p, { files := (p, content) :: fs.files, dirs := h.base_dir :: fs.dirs })

/-! ## `SecureHTTPClient.safe_get` -/

/-- An HTTP response as `safe_get` observes it: whether
`raise_for_status()` passes, the parsed `content-length` header when
present, and the body as the sequence of streamed chunks (bytes as `Nat`). -/
structure HTTPResponse where
  ok : Bool
  contentLength : Option Nat
  chunks : List (List Nat)

/-- The streaming loop of `safe_get` (lines 260-264): append each chunk and
abort as soon as the accumulated byte count exceeds `max_size`. -/
def readChunks (maxSize : Nat) (acc : List Nat) : List (List Nat) → Except String (List Nat)
  | [] => .ok acc
  | ch :: rest =>
    let acc2 := acc ++ ch
    if acc2.length > maxSize then .error ("Response content too large")
    else readChunks maxSize acc2 rest

/-- `SecureHTTPClient.safe_get` (lines 241-267): validate the URL, check
the declared `content-length` against `max_size` when the header is present,
then stream the body with the incremental size guard. -/
def safe_get (url : String) (resp : HTTPResponse) (maxSize : Nat) :
    Except String (List Nat) :=
  match validate_url url with
  | .error e => .error e
  | .ok _ =>
    if ! resp.ok then .error ("HTTP request failed")
    else
      match resp.contentLength with
      | some cl =>
        if cl > maxSize then .error ("Response too large: " ++ toString cl ++ " bytes")
        else readChunks maxSize [] resp.chunks
      | none => readChunks maxSize [] resp.chunks

/-! ## `RateLimiter` -/

/-- `RateLimiter`: the window parameters and the map
`identifier ↦ {count, first_request}` (an ordered association list, as a
Python dict). -/
structure RateLimiter where
  max_requests : Nat
  time_window : Int
  requests : List (String × Nat × Int)

/-- Dict lookup in the requests map. -/
def rlLookup (l : List (String × Nat × Int)) (id : String) : Option (Nat × Int) :=
  (l.find? (fun e => e.1 == id)).map Prod.snd

/-- Dict update of an existing identifier (`request_data['count'] += 1`). -/
def rlUpdate (l : List (String × Nat × Int)) (id : String) (v : Nat × Int) :
    List (String × Nat × Int) :=
  l.map (fun e => if e.1 == id then (id, v) else e)

/-- `RateLimiter.is_allowed` (lines 327-351): prune entries whose age
reaches the window, then create / increment / refuse.  `current_time` is
the value of `time.time()` at the call. -/
def is_allowed (rl : RateLimiter) (identifier : String) (current_time : Int) :
    Bool × RateLimiter :=
  match rlLookup (rl.requests.filter
      (fun e => decide (current_time - e.2.2 < rl.time_window))) identifier with
  | none =>
    (true, { rl with
      requests := rl.requests.filter
          (fun e => decide (current_time - e.2.2 < rl.time_window)) ++
        [(identifier, 1, current_time)] })
  | some (c, f) =>
    if c ≥ rl.max_requests then
      (false, { rl with
        requests := rl.requests.filter
          (fun e => decide (current_time - e.2.2 < rl.time_window)) })
    else
      (true, { rl with
        requests := rlUpdate (rl.requests.filter
            (fun e => decide (current_time - e.2.2 < rl.time_window)))
          identifier (c + 1, f) })

/-- Run a sequence of `is_allowed` calls `(identifier, time)` from a state,
collecting the returned booleans. -/
def runCalls (rl : RateLimiter) : List (String × Int) → List Bool × RateLimiter
  | [] => ([], rl)
  | c :: rest =>
    ((is_allowed rl c.1 c.2).1 :: (runCalls (is_allowed rl c.1 c.2).2 rest).1,
     (runCalls (is_allowed rl c.1 c.2).2 rest).2)

/-- Insert an element at position `k` (clamped to the end) of a list. -/
def insertAt (k : Nat) (x : α) (l : List α) : List α :=
  match k, l with
  | 0, l => x :: l
  | _ + 1, [] => [x]
  | n + 1, a :: t => a :: insertAt n x t

/-- The host component of a URL: the text after `://` and before the first
`:`, `/` or `?`. -/
def afterScheme : List Char → List Char
  | ':' :: '/' :: '/' :: rest => rest
  | _ :: t => afterScheme t
  | [] => []

/-- Extract the host of a URL string. -/
def urlHost (u : String) : String :=
  ⟨(afterScheme u.data).takeWhile (fun c => ! (c = ':' || c = '/' || c = '?'))⟩

/-- A matcher only consumes characters satisfying `Q`: every returned
remainder is a suffix whose consumed prefix is all-`Q`. -/
def MConsumes (m : MT) (Q : Char → Prop) : Prop :=
  ∀ cs r, r ∈ m cs → ∃ pre, cs = pre ++ r ∧ ∀ c ∈ pre, Q c

/-! ## Helper lemmas: stripping -/

lemma length_dropWhile_le (p : Char → Bool) (l : List Char) :
    (l.dropWhile p).length ≤ l.length := by
  induction l with
  | nil => simp
  | cons a t ih =>
    rw [List.dropWhile_cons]
    split
    · exact Nat.le_trans ih (Nat.le_succ _)
    · simp

lemma length_pyStripList_le (cs : List Char) : (pyStripList cs).length ≤ cs.length := by
  unfold pyStripList
  calc ((cs.dropWhile pySpace).reverse.dropWhile pySpace).reverse.length
      = ((cs.dropWhile pySpace).reverse.dropWhile pySpace).length := by
        rw [List.length_reverse]
    _ ≤ (cs.dropWhile pySpace).reverse.length := length_dropWhile_le _ _
    _ = (cs.dropWhile pySpace).length := by rw [List.length_reverse]
    _ ≤ cs.length := length_dropWhile_le _ _

lemma mem_dropWhile_of_mem {a : Char} (p : Char → Bool) (hp : p a = false) :
    ∀ {l : List Char}, a ∈ l → a ∈ l.dropWhile p := by
  intro l hl
  induction l with
  | nil => cases hl
  | cons b t ih =>
    rw [List.dropWhile_cons]
    by_cases hb : p b = true
    · rw [if_pos hb]
      rcases List.mem_cons.mp hl with h | h
      · exact absurd (h ▸ hb) (by simp [hp])
      · exact ih h
    · rw [if_neg hb]
      exact hl

lemma mem_pyStripList_of_mem {a : Char} (hp : pySpace a = false) {cs : List Char}
    (h : a ∈ cs) : a ∈ pyStripList cs := by
  unfold pyStripList
  rw [List.mem_reverse]
  exact mem_dropWhile_of_mem pySpace hp (List.mem_reverse.mpr (mem_dropWhile_of_mem pySpace hp h))

lemma dropWhile_head_false (p : Char → Bool) (l : List Char) :
    l.dropWhile p = [] ∨ ∃ a t, l.dropWhile p = a :: t ∧ p a = false := by
  induction l with
  | nil => exact Or.inl rfl
  | cons b t ih =>
    rw [List.dropWhile_cons]
    by_cases hb : p b = true
    · rw [if_pos hb]; exact ih
    · rw [if_neg hb]
      exact Or.inr ⟨b, t, rfl, by simpa using hb⟩

/-- The stripped list is empty or ends in a non-whitespace character. -/
lemma pyStripList_last (cs : List Char) :
    pyStripList cs = [] ∨
    ∃ u a, pyStripList cs = u ++ [a] ∧ pySpace a = false := by
  unfold pyStripList
  rcases dropWhile_head_false pySpace (cs.dropWhile pySpace).reverse with h | ⟨a, t, h, ha⟩
  · left; rw [h]; rfl
  · right
    exact ⟨t.reverse, a, by rw [h]; simp, ha⟩

/-! ## Helper lemmas: the `'..' in filename` check -/

lemma hasDotDot_ne_nil {cs : List Char} (h : hasDotDot cs = true) : cs ≠ [] := by
  intro he; subst he; simp [hasDotDot] at h

lemma hasDotDot_append_left {l : List Char} (r : List Char) (h : hasDotDot l = true) :
    hasDotDot (l ++ r) = true := by
  induction l with
  | nil => simp [hasDotDot] at h
  | cons x l2 ih =>
    cases l2 with
    | nil => simp [hasDotDot] at h
    | cons y l3 =>
      rw [show (x :: y :: l3) ++ r = x :: y :: (l3 ++ r) from rfl]
      rw [hasDotDot] at h ⊢
      rcases Bool.or_eq_true_iff.mp h with h1 | h2
      · exact Bool.or_eq_true_iff.mpr (Or.inl h1)
      · exact Bool.or_eq_true_iff.mpr (Or.inr (ih h2))

lemma hasDotDot_append_right (l : List Char) {r : List Char} (h : hasDotDot r = true) :
    hasDotDot (l ++ r) = true := by
  induction l with
  | nil => simpa using h
  | cons x l2 ih =>
    have hne : l2 ++ r ≠ [] := by
      rcases r with _ | _
      · simp [hasDotDot] at h
      · simp
    rcases he : l2 ++ r with _ | ⟨y, w⟩
    · exact absurd he hne
    · rw [show (x :: l2) ++ r = x :: (l2 ++ r) from rfl, he, hasDotDot]
      exact Bool.or_eq_true_iff.mpr (Or.inr (by rw [← he]; exact ih))

lemma hasDotDot_reverse {cs : List Char} (h : hasDotDot cs = true) :
    hasDotDot cs.reverse = true := by
  induction cs with
  | nil => simp [hasDotDot] at h
  | cons a t ih =>
    cases t with
    | nil => simp [hasDotDot] at h
    | cons b t2 =>
      rw [hasDotDot] at h
      rcases Bool.or_eq_true_iff.mp h with h1 | h2
      · have ha : a = '.' := by
          have := Bool.and_eq_true_iff.mp h1
          exact of_decide_eq_true this.1
        have hb : b = '.' := by
          have := Bool.and_eq_true_iff.mp h1
          exact of_decide_eq_true this.2
        subst ha; subst hb
        rw [show ('.' :: '.' :: t2).reverse = t2.reverse ++ [ '.', '.' ] from by simp]
        exact hasDotDot_append_right _ (by simp [hasDotDot])
      · rw [show (a :: b :: t2).reverse = (b :: t2).reverse ++ [a] from by simp]
        exact hasDotDot_append_left _ (ih h2)

lemma hasDotDot_dropWhile {cs : List Char} (h : hasDotDot cs = true) :
    hasDotDot (cs.dropWhile pySpace) = true := by
  induction cs with
  | nil => simp [hasDotDot] at h
  | cons a t ih =>
    rw [List.dropWhile_cons]
    by_cases ha : pySpace a = true
    · rw [if_pos ha]
      cases t with
      | nil => simp [hasDotDot] at h
      | cons b t2 =>
        rw [hasDotDot] at h
        rcases Bool.or_eq_true_iff.mp h with h1 | h2
        · have : a = '.' := of_decide_eq_true (Bool.and_eq_true_iff.mp h1).1
          subst this
          simp [pySpace, nlChar] at ha
        · exact ih h2
    · rw [if_neg ha]
      exact h

lemma hasDotDot_pyStripList {cs : List Char} (h : hasDotDot cs = true) :
    hasDotDot (pyStripList cs) = true := by
  unfold pyStripList
  exact hasDotDot_reverse (hasDotDot_dropWhile (hasDotDot_reverse (hasDotDot_dropWhile h)))

/-! ## Helper lemmas: matcher consumption -/

lemma mconsumes_mlit {Q : Char → Prop} (c : Char) (hc : Q c) : MConsumes (mlit c) Q := by
  intro cs r hr
  cases cs with
  | nil => cases hr
  | cons b t =>
    simp only [mlit] at hr
    by_cases hb : b = c
    · rw [if_pos hb] at hr
      rcases List.mem_singleton.mp hr with rfl
      exact ⟨[b], rfl, by intro x hx; rcases List.mem_singleton.mp hx with rfl; exact hb ▸ hc⟩
    · rw [if_neg hb] at hr; cases hr

lemma mrems_spec (p : Char → Bool) :
    ∀ cs r, r ∈ mrems p cs → ∃ pre, cs = pre ++ r ∧ ∀ c ∈ pre, p c = true := by
  intro cs
  induction cs with
  | nil =>
    intro r hr
    rcases List.mem_singleton.mp hr with rfl
    exact ⟨[], rfl, by intro c hc; cases hc⟩
  | cons b t ih =>
    intro r hr
    unfold mrems at hr
    rcases List.mem_cons.mp hr with rfl | hr2
    · exact ⟨[], rfl, by intro c hc; cases hc⟩
    · by_cases hb : p b = true
      · rw [if_pos hb] at hr2
        obtain ⟨pre, hpre, hall⟩ := ih r hr2
        refine ⟨b :: pre, by rw [hpre]; rfl, ?_⟩
        intro c hc
        rcases List.mem_cons.mp hc with rfl | hc2
        · exact hb
        · exact hall c hc2
      · rw [if_neg hb] at hr2; cases hr2

lemma mconsumes_mclsMin {Q : Char → Prop} (p : Char → Bool) (lo : Nat)
    (hp : ∀ c, p c = true → Q c) : MConsumes (mclsMin p lo) Q := by
  intro cs r hr
  unfold mclsMin at hr
  obtain ⟨pre, hpre, hall⟩ := mrems_spec p cs r (List.mem_of_mem_filter hr)
  exact ⟨pre, hpre, fun c hc => hp c (hall c hc)⟩

lemma mconsumes_mseq {Q : Char → Prop} {a b : MT}
    (ha : MConsumes a Q) (hb : MConsumes b Q) : MConsumes (mseq a b) Q := by
  intro cs r hr
  unfold mseq at hr
  obtain ⟨mid, hmid, hr2⟩ := List.mem_flatMap.mp hr
  obtain ⟨pre1, hpre1, hall1⟩ := ha cs mid hmid
  obtain ⟨pre2, hpre2, hall2⟩ := hb mid r hr2
  refine ⟨pre1 ++ pre2, by rw [hpre1, hpre2, List.append_assoc], ?_⟩
  intro c hc
  rcases List.mem_append.mp hc with h | h
  · exact hall1 c h
  · exact hall2 c h

/-- The email matcher consumes no newline characters. -/
lemma emailMT_no_newline : MConsumes emailMT (fun c => c ≠ nlChar) := by
  unfold emailMT
  refine mconsumes_mseq (mconsumes_mclsMin _ _ ?_)
    (mconsumes_mseq (mconsumes_mlit _ (by decide))
      (mconsumes_mseq (mconsumes_mclsMin _ _ ?_)
        (mconsumes_mseq (mconsumes_mlit _ (by decide)) (mconsumes_mclsMin _ _ ?_))))
  · intro c hc he; subst he; revert hc; decide
  · intro c hc he; subst he; revert hc; decide
  · intro c hc he; subst he; revert hc; decide

lemma append_singleton_inj {l1 l2 : List Char} {a b : Char}
    (h : l1 ++ [a] = l2 ++ [b]) : l1 = l2 ∧ a = b := by
  obtain ⟨h1, h2⟩ := List.append_inj' h rfl
  exact ⟨h1, (List.cons.inj h2).1⟩

/-- A successful email match splits the input into newline-free text plus an
empty or single-trailing-newline remainder. -/
lemma email_match_decomp {s : String} (h : email_pattern_match s = true) :
    ∃ pre r, s.data = pre ++ r ∧ (r = [] ∨ r = [nlChar]) ∧ ∀ c ∈ pre, c ≠ nlChar := by
  unfold email_pattern_match mMatches at h
  obtain ⟨r, hr, hend⟩ := List.any_eq_true.mp h
  obtain ⟨pre, hpre, hall⟩ := emailMT_no_newline s.data r hr
  refine ⟨pre, r, hpre, ?_, hall⟩
  unfold mend at hend
  rcases Bool.or_eq_true_iff.mp hend with h1 | h1
  · exact Or.inl (of_decide_eq_true h1)
  · exact Or.inr (of_decide_eq_true h1)

/-- A stripped string with a remaining (hence interior) newline cannot match
the email pattern, even after lower-casing. -/
lemma email_match_false_of_newline {s : String} (hmem : nlChar ∈ (pyStrip s).data) :
    email_pattern_match (pyLower (pyStrip s)) = false := by
  cases hb : email_pattern_match (pyLower (pyStrip s)) with
  | false => rfl
  | true =>
    exfalso
    obtain ⟨u1, v1, hsplit⟩ := List.append_of_mem hmem
    have hv1 : v1 ≠ [] := by
      intro hv; subst hv
      rcases pyStripList_last s.data with hnil | ⟨u, a, hua, hpa⟩
      · rw [show (pyStrip s).data = pyStripList s.data from rfl, hnil] at hmem
        cases hmem
      · rw [show (pyStrip s).data = pyStripList s.data from rfl] at hsplit
        rw [hsplit] at hua
        have : a = nlChar := (append_singleton_inj hua.symm).2
        subst this
        rw [show pySpace nlChar = true from by decide] at hpa
        cases hpa
    have hlow : (pyLower (pyStrip s)).data =
        u1.map Char.toLower ++ nlChar :: v1.map Char.toLower := by
      rw [show (pyLower (pyStrip s)).data = (pyStrip s).data.map Char.toLower from rfl,
        hsplit, List.map_append, List.map_cons,
        show Char.toLower nlChar = nlChar from by decide]
    obtain ⟨pre, r, hdecomp, hr, hall⟩ := email_match_decomp hb
    have hmem2 : nlChar ∈ (pyLower (pyStrip s)).data := by
      rw [hlow]
      exact List.mem_append.mpr (Or.inr (List.mem_cons_self _ _))
    rcases hr with rfl | rfl
    · rw [List.append_nil] at hdecomp
      exact hall nlChar (hdecomp ▸ hmem2) rfl
    · rcases List.eq_nil_or_concat (v1.map Char.toLower) with hnil | ⟨w, lastc, hw⟩
      · exact hv1 (List.map_eq_nil_iff.mp hnil)
      · rw [List.concat_eq_append] at hw
        rw [hlow, hw, show u1.map Char.toLower ++ nlChar :: (w ++ [lastc]) =
          (u1.map Char.toLower ++ nlChar :: w) ++ [lastc] from by simp] at hdecomp
        have := append_singleton_inj hdecomp.symm
        have hnlpre : nlChar ∈ pre := by
          rw [this.1]
          exact List.mem_append.mpr (Or.inr (List.mem_cons_self _ _))
        exact hall nlChar hnlpre rfl

lemma listHasChar_eq_true_iff {c : Char} {cs : List Char} :
    listHasChar c cs = true ↔ c ∈ cs := by
  unfold listHasChar
  rw [List.any_eq_true]
  constructor
  · rintro ⟨x, hx, hxc⟩
    have : x = c := of_decide_eq_true hxc
    exact this ▸ hx
  · intro h
    exact ⟨c, h, decide_eq_true rfl⟩

/-! ## Claim theorems -/

/-- C1, counterexample: `sanitize_html` returns non-string input as its bare
`str()` representation without escaping, so the output can contain a literal
`<`: the SanitizedText invariant does not hold for all inputs. -/
theorem C1_sanitize_html_counterexample :
    sanitize_html (PyVal.other ("<script>")) = ("<script>") ∧
    '<' ∈ (sanitize_html (PyVal.other ("<script>"))).data :=
  ⟨rfl, by decide⟩

lemma mem_replaceChar {a c : Char} {rep l : List Char}
    (h : a ∈ replaceChar c rep l) : a ∈ rep ∨ (a ∈ l ∧ a ≠ c) := by
  induction l with
  | nil => cases h
  | cons b t ih =>
    unfold replaceChar at h
    rcases List.mem_append.mp h with h1 | h1
    · by_cases hb : b = c
      · rw [if_pos hb] at h1
        exact Or.inl h1
      · rw [if_neg hb] at h1
        have : a = b := List.mem_singleton.mp h1
        subst this
        exact Or.inr ⟨List.mem_cons_self _ _, hb⟩
    · rcases ih h1 with h2 | ⟨h2, h3⟩
      · exact Or.inl h2
      · exact Or.inr ⟨List.mem_cons_of_mem _ h2, h3⟩

/-- C1, amended: string inputs are escaped entity-wise and the result
contains no literal `<` or `>`; a non-string input is returned as its
textual representation unescaped (so the invariant holds only for string
inputs).  The function is total: it never raises. -/
theorem C1_sanitize_html_amended (s r : String) :
    '<' ∉ (sanitize_html (.str s)).data ∧
    '>' ∉ (sanitize_html (.str s)).data ∧
    sanitize_html (.other r) = r := by
  refine ⟨?_, ?_, rfl⟩
  · intro hmem
    have h1 := mem_replaceChar (show '<' ∈ replaceChar aposChar (String.data ("&#x27;")) _ from hmem)
    rcases h1 with h1 | ⟨h1, _⟩
    · revert h1; decide
    rcases mem_replaceChar h1 with h2 | ⟨h2, _⟩
    · revert h2; decide
    rcases mem_replaceChar h2 with h3 | ⟨h3, _⟩
    · revert h3; decide
    rcases mem_replaceChar h3 with h4 | ⟨_, h5⟩
    · revert h4; decide
    · exact h5 rfl
  · intro hmem
    have h1 := mem_replaceChar (show '>' ∈ replaceChar aposChar (String.data ("&#x27;")) _ from hmem)
    rcases h1 with h1 | ⟨h1, _⟩
    · revert h1; decide
    rcases mem_replaceChar h1 with h2 | ⟨h2, _⟩
    · revert h2; decide
    rcases mem_replaceChar h2 with h3 | ⟨_, h4⟩
    · revert h3; decide
    · exact h4 rfl

/-- C2: the scheme check of `validate_url` is the prefix test
`url.startswith('http://localhost')`, so the plain-HTTP URL
`http://localhostevil.com` — whose host merely begins with the characters
`localhost` — passes the structural pattern and is returned unchanged
instead of being rejected with the insecure-scheme error. -/
theorem C2_url_scheme_bypass :
    safe_url_pattern_match ("http://localhostevil.com") = true ∧
    urlHost ("http://localhostevil.com") = ("localhostevil.com") ∧
    ¬ urlHost ("http://localhostevil.com") = ("localhost") ∧
    validate_url ("http://localhostevil.com") = .ok ("http://localhostevil.com") :=
  ⟨by decide, by rfl, by decide, by rfl⟩

/-- C3: `sanitize_email` fails for every input still containing a line
break after stripping (header injection is rejected), the concrete
injection example fails, and `"User+Tag@Domain.CO.UK"` is returned trimmed
and lower-cased. -/
theorem C3_sanitize_email :
    (∀ s : String, nlChar ∈ (pyStrip s).data → (sanitize_email s).isOk = false) ∧
    sanitize_email ("test@example.com\nBCC: x@y.com") =
      .error ("Invalid email format: test@example.com\nbcc: x@y.com") ∧
    sanitize_email ("User+Tag@Domain.CO.UK") = .ok ("user+tag@domain.co.uk") := by
  refine ⟨?_, by rfl, by rfl⟩
  intro s hmem
  have hf := email_match_false_of_newline hmem
  simp [sanitize_email, hf, Except.isOk, Except.toBool]

/-- C3 witness: the header-injection example is rejected, via the general
statement. -/
theorem C3_sanitize_email_witness :
    (sanitize_email ("test@example.com\nBCC: x@y.com")).isOk = false :=
  C3_sanitize_email.1 ("test@example.com\nBCC: x@y.com") (by decide)

/-- C4: any filename (within the 255-character limit) containing `..`, `/`
or `\` is rejected by `validate_filename` with the path-traversal error,
whatever its extension and whether or not a base directory is supplied. -/
theorem C4_filename_path_traversal (s : String) (b : Option String) (r : Bool)
    (hlen : s.length ≤ 255)
    (h : hasDotDot s.data = true ∨ listHasChar '/' s.data = true ∨
      listHasChar bslashChar s.data = true) :
    validate_filename s b r = .error ("Path traversal detected in filename") := by
  have hcond : (hasDotDot (pyStrip s).data || listHasChar '/' (pyStrip s).data ||
      listHasChar bslashChar (pyStrip s).data) = true := by
    rcases h with h | h | h
    · have := hasDotDot_pyStripList h
      simp [show (pyStrip s).data = pyStripList s.data from rfl, this]
    · have := mem_pyStripList_of_mem (show pySpace '/' = false from by decide)
        (listHasChar_eq_true_iff.mp h)
      simp [show (pyStrip s).data = pyStripList s.data from rfl,
        listHasChar_eq_true_iff.mpr this]
    · have := mem_pyStripList_of_mem (show pySpace bslashChar = false from by decide)
        (listHasChar_eq_true_iff.mp h)
      simp [show (pyStrip s).data = pyStripList s.data from rfl,
        listHasChar_eq_true_iff.mpr this]
  have hne : (pyStrip s).data ≠ [] := by
    intro he
    rw [he] at hcond
    simp [hasDotDot, listHasChar] at hcond
  have hl2 : ¬ ((pyStrip s).length > 255) := by
    have h1 : (pyStrip s).length = (pyStripList s.data).length := rfl
    have h2 := length_pyStripList_le s.data
    have h3 : s.length = s.data.length := rfl
    omega
  unfold validate_filename
  rw [if_neg (by simp [List.isEmpty_iff, hne]), if_neg hl2, if_pos hcond]

/-- C4 witness: the traversal filename `../secret.txt` is rejected. -/
theorem C4_filename_path_traversal_witness :
    validate_filename ("../secret.txt") (some ("/base")) true =
      .error ("Path traversal detected in filename") :=
  C4_filename_path_traversal ("../secret.txt") (some ("/base")) true
    (by decide) (Or.inl (by decide))

lemma univNewlines_of_no_cr : ∀ (cs : List Char), crChar ∉ cs → univNewlines cs = cs
  | [], _ => rfl
  | [c], h => by
    have hc : c ≠ crChar := by
      rintro rfl
      exact h (List.mem_cons_self _ _)
    simp only [univNewlines]
    rw [if_neg hc]
  | c :: c2 :: cs, h => by
    have hc : c ≠ crChar := by
      rintro rfl
      exact h (List.mem_cons_self _ _)
    simp only [univNewlines]
    rw [if_neg hc,
      univNewlines_of_no_cr (c2 :: cs) (fun hm => h (List.mem_cons_of_mem _ hm))]

/-- C5, counterexample: text-mode reading applies universal-newline
translation, so writing a content with a lone carriage return and reading
it back returns a different string — the round trip fails on CR-containing
valid UTF-8 within the size limit. -/
theorem C5_file_roundtrip_counterexample :
    (safe_write_file ⟨("/base")⟩ ⟨[], []⟩ ("a.txt") ("x\ry") none true).1 =
      .ok (joinPath ("/base") ("a.txt")) ∧
    safe_read_file ⟨("/base")⟩
        (safe_write_file ⟨("/base")⟩ ⟨[], []⟩ ("a.txt") ("x\ry") none true).2
        ("a.txt") none true = .ok ("x\ny") ∧
    ("x\ry" : String) ≠ ("x\ny") :=
  ⟨by rfl, by rfl, by decide⟩

/-- C5, amended: writing a valid filename with carriage-return-free content
of at most the 10 MiB default ceiling succeeds, returns the joined absolute
path, and a subsequent `safe_read_file` of the same name on the same
handler returns exactly the written content (universal-newline translation
on read makes CR-free content a fixed point of the round trip). -/
theorem C5_file_roundtrip (h : SecureFileHandler) (fs : FileSystem)
    (f content vf : String)
    (hv : validate_filename f (some h.base_dir) true = .ok vf)
    (hsize : utf8Len content ≤ MAX_CONTENT_SIZE)
    (hcr : crChar ∉ content.data) :
    (safe_write_file h fs f content none true).1 = .ok (joinPath h.base_dir vf) ∧
    safe_read_file h (safe_write_file h fs f content none true).2 f none true =
      .ok content := by
  have hnotbig : ¬ (utf8Len content > pyOrDefault none MAX_CONTENT_SIZE) := by
    simp only [pyOrDefault]
    omega
  constructor
  · simp only [safe_write_file, hv]
    rw [if_neg hnotbig]
  · simp only [safe_write_file, hv]
    rw [if_neg hnotbig]
    simp [safe_read_file, hv, lookupFile, hnotbig, univNewlines_of_no_cr content.data hcr]

/-- C5 witness: a concrete CR-free round trip through an empty store. -/
theorem C5_file_roundtrip_witness :
    (safe_write_file ⟨("/base")⟩ ⟨[], []⟩ ("a.txt") ("hello") none true).1 =
      .ok (joinPath ("/base") ("a.txt")) ∧
    safe_read_file ⟨("/base")⟩
        (safe_write_file ⟨("/base")⟩ ⟨[], []⟩ ("a.txt") ("hello") none true).2
        ("a.txt") none true = .ok ("hello") :=
  C5_file_roundtrip ⟨("/base")⟩ ⟨[], []⟩ ("a.txt") ("hello") ("a.txt")
    (by rfl) (by decide) (by decide)

lemma readChunks_ok_le (maxSize : Nat) :
    ∀ (chunks : List (List Nat)) (acc body : List Nat),
      readChunks maxSize acc chunks = .ok body → acc.length ≤ maxSize →
      body.length ≤ maxSize := by
  intro chunks
  induction chunks with
  | nil =>
    intro acc body hok hacc
    rw [readChunks] at hok
    cases hok
    exact hacc
  | cons ch rest ih =>
    intro acc body hok hacc
    rw [readChunks] at hok
    by_cases hgt : (acc ++ ch).length > maxSize
    · rw [if_pos hgt] at hok; cases hok
    · rw [if_neg hgt] at hok
      exact ih (acc ++ ch) body hok (by omega)

lemma readChunks_err (maxSize : Nat) :
    ∀ (chunks : List (List Nat)) (acc : List Nat),
      acc.length ≤ maxSize →
      maxSize < acc.length + (chunks.map List.length).sum →
      readChunks maxSize acc chunks = .error ("Response content too large") := by
  intro chunks
  induction chunks with
  | nil =>
    intro acc hacc hbig
    simp at hbig
    omega
  | cons ch rest ih =>
    intro acc hacc hbig
    rw [readChunks]
    by_cases hgt : (acc ++ ch).length > maxSize
    · rw [if_pos hgt]
    · rw [if_neg hgt]
      refine ih (acc ++ ch) (by omega) ?_
      simp only [List.length_append, List.map_cons, List.sum_cons] at *
      omega

/-- C7: whatever the chunk sequence and whatever the `content-length`
header claims (present, absent, or understated), a body returned by
`safe_get` has at most `maxSize` bytes, and a body totalling more than
`maxSize` bytes is never returned — the streaming guard aborts. -/
theorem C7_response_size_bound (url : String) (resp : HTTPResponse) (maxSize : Nat) :
    (∀ body, safe_get url resp maxSize = .ok body → body.length ≤ maxSize) ∧
    (maxSize < ((resp.chunks.map List.length).sum) →
      (safe_get url resp maxSize).isOk = false) := by
  obtain ⟨rok, rcl, rchunks⟩ := resp
  constructor
  · intro body hok
    unfold safe_get at hok
    rcases hu : validate_url url with e | u <;> rw [hu] at hok
    · cases hok
    · cases rok with
      | false => simp at hok
      | true =>
        simp only [Bool.not_true, Bool.false_eq_true, if_false] at hok
        cases rcl with
        | none => exact readChunks_ok_le maxSize rchunks [] body hok (by simp)
        | some cl =>
          have hok2 : (if cl > maxSize then
              Except.error ("Response too large: " ++ toString cl ++ " bytes")
            else readChunks maxSize [] rchunks) = .ok body := hok
          by_cases hbig : cl > maxSize
          · rw [if_pos hbig] at hok2; cases hok2
          · rw [if_neg hbig] at hok2
            exact readChunks_ok_le maxSize rchunks [] body hok2 (by simp)
  · intro hbig
    have herr : readChunks maxSize [] rchunks = .error ("Response content too large") :=
      readChunks_err maxSize rchunks [] (by simp) (by simpa using hbig)
    unfold safe_get
    rcases hu : validate_url url with e | u
    · rfl
    · cases rok with
      | false => rfl
      | true =>
        simp only [Bool.not_true, Bool.false_eq_true, if_false]
        cases rcl with
        | none => rw [herr]; rfl
        | some cl =>
          show (if cl > maxSize then
              Except.error ("Response too large: " ++ toString cl ++ " bytes")
            else readChunks maxSize [] rchunks).isOk = false
          by_cases hb2 : cl > maxSize
          · rw [if_pos hb2]; rfl
          · rw [if_neg hb2, herr]; rfl

/-- C7 witness: a small body passes the bound; an oversized chunked body
with no content-length header is refused. -/
theorem C7_response_size_bound_witness :
    (([1, 2, 3] : List Nat).length ≤ 10) ∧
    (safe_get ("https://example.com/") ⟨true, none, [[1, 2], [3, 4]]⟩ 3).isOk = false :=
  ⟨(C7_response_size_bound ("https://example.com/") ⟨true, none, [[1, 2, 3]]⟩ 10).1
      [1, 2, 3] (by rfl),
   (C7_response_size_bound ("https://example.com/") ⟨true, none, [[1, 2], [3, 4]]⟩ 3).2
      (by decide)⟩

/-- C10: when the UTF-8 byte length of the content exceeds the effective
size ceiling, `safe_write_file` fails and the file store is returned
exactly as it was: the size check precedes directory creation and the
write. -/
theorem C10_write_size_check_first (h : SecureFileHandler) (fs : FileSystem)
    (f content : String) (m : Option Nat) (r : Bool)
    (hbig : pyOrDefault m MAX_CONTENT_SIZE < utf8Len content) :
    (∃ e, (safe_write_file h fs f content m r).1 = .error e) ∧
    (safe_write_file h fs f content m r).2 = fs := by
  rcases hv : validate_filename f (some h.base_dir) r with e | vf
  · constructor
    · exact ⟨e, by simp [safe_write_file, hv]⟩
    · simp [safe_write_file, hv]
  · constructor
    · refine ⟨("Content too large: " ++ toString (utf8Len content) ++ " bytes"), ?_⟩
      simp only [safe_write_file, hv]
      rw [if_pos (by omega)]
    · simp only [safe_write_file, hv]
      rw [if_pos (by omega)]

/-- C10 witness: a 5-byte content against a caller-supplied 3-byte ceiling
is refused with the store untouched. -/
theorem C10_write_size_check_first_witness :
    (∃ e, (safe_write_file ⟨("/base")⟩ ⟨[], []⟩ ("a.txt") ("hello") (some 3) true).1 =
      .error e) ∧
    (safe_write_file ⟨("/base")⟩ ⟨[], []⟩ ("a.txt") ("hello") (some 3) true).2 =
      (⟨[], []⟩ : FileSystem) :=
  C10_write_size_check_first ⟨("/base")⟩ ⟨[], []⟩ ("a.txt") ("hello") (some 3) true
    (by decide)

lemma updateEntry_map_fst (l : List (String × PyVal)) (k : String) (v : PyVal) :
    (updateEntry l k v).map Prod.fst = l.map Prod.fst := by
  unfold updateEntry
  rw [List.map_map]
  refine List.map_congr_left ?_
  intro e _
  by_cases he : e.1 == k
  · simp only [Function.comp_apply, if_pos he]
    exact (eq_of_beq he).symm
  · simp only [Function.comp_apply, if_neg he]

lemma mem_updateEntry_of_ne {l : List (String × PyVal)} {k : String} {v : PyVal}
    {e : String × PyVal} (hmem : e ∈ l) (hne : e.1 ≠ k) : e ∈ updateEntry l k v := by
  unfold updateEntry
  have hfix : (fun x : String × PyVal => if x.1 == k then (k, v) else x) e = e := by
    show (if e.1 == k then (k, v) else e) = e
    rw [if_neg (by simp [hne])]
  exact hfix ▸ List.mem_map_of_mem _ hmem

lemma lookupPy_updateEntry {l : List (String × PyVal)} {k : String} {w : PyVal}
    (v : PyVal) (h : lookupPy l k = some w) :
    lookupPy (updateEntry l k v) k = some v := by
  induction l with
  | nil => simp [lookupPy] at h
  | cons e t ih =>
    by_cases he : (e.1 == k) = true
    · simp [lookupPy, updateEntry, List.find?, he]
    · have he2 : (e.1 == k) = false := by simpa using he
      simp only [lookupPy, updateEntry, List.map_cons, List.find?, he2, if_false,
        Bool.false_eq_true] at h ⊢
      exact ih h

/-- C9: on success `validate_json_config` returns the input mapping with
the same keys in the same order, every entry other than `websites`
(unknown keys included) untouched, and only the `websites` value replaced
by the validated list. -/
theorem C9_config_frame (entries : List (String × PyVal)) (out : PyVal)
    (h : validate_json_config (.dict entries) = .ok out) :
    ∃ entries2, out = .dict entries2 ∧
      entries2.map Prod.fst = entries.map Prod.fst ∧
      (∀ e ∈ entries, e.1 ≠ ("websites") → e ∈ entries2) ∧
      (∀ ws, lookupPy entries ("websites") = some (.list ws) →
        ∃ vs, validate_websites ws = .ok vs ∧
          lookupPy entries2 ("websites") = some (.list vs)) := by
  simp only [validate_json_config] at h
  rcases hw : lookupPy entries ("websites") with _ | w
  · rw [hw] at h
    cases h
    refine ⟨entries, rfl, rfl, fun e he _ => he, ?_⟩
    intro ws hws
    exact absurd hws (by simp)
  · rw [hw] at h
    rcases w with u | ws | d | o
    · cases h
    · have h2 : (match validate_websites ws with
          | Except.error e => (Except.error e : Except String PyVal)
          | Except.ok vs =>
            Except.ok (PyVal.dict (updateEntry entries ("websites") (PyVal.list vs)))) =
          Except.ok out := h
      rcases hvw : validate_websites ws with e | vs
      · rw [hvw] at h2; cases h2
      · rw [hvw] at h2
        cases h2
        refine ⟨updateEntry entries ("websites") (.list vs), rfl,
          updateEntry_map_fst _ _ _, fun e he hne => mem_updateEntry_of_ne he hne, ?_⟩
        intro ws2 hws2
        have hws3 : ws = ws2 := by
          injection hws2 with h3
          injection h3
        subst hws3
        exact ⟨vs, hvw, lookupPy_updateEntry _ hw⟩
    · cases h
    · cases h

/-- C9 witness: a config with an unknown key and a websites list keeps the
unknown entry and replaces only the websites value. -/
theorem C9_config_frame_witness :
    ∃ entries2,
      (PyVal.dict [(("unexpected_key"), PyVal.str ("v")),
        (("websites"), PyVal.list [PyVal.str ("hospitalogy")])]) = .dict entries2 ∧
      entries2.map Prod.fst =
        ([(("unexpected_key"), PyVal.str ("v")),
          (("websites"), PyVal.list [PyVal.str ("hospitalogy")])].map Prod.fst) ∧
      (∀ e ∈ [(("unexpected_key"), PyVal.str ("v")),
          (("websites"), PyVal.list [PyVal.str ("hospitalogy")])],
        e.1 ≠ ("websites") → e ∈ entries2) ∧
      (∀ ws, lookupPy [(("unexpected_key"), PyVal.str ("v")),
          (("websites"), PyVal.list [PyVal.str ("hospitalogy")])] ("websites") =
            some (.list ws) →
        ∃ vs, validate_websites ws = .ok vs ∧
          lookupPy entries2 ("websites") = some (.list vs)) :=
  C9_config_frame
    [(("unexpected_key"), PyVal.str ("v")),
      (("websites"), PyVal.list [PyVal.str ("hospitalogy")])]
    (PyVal.dict [(("unexpected_key"), PyVal.str ("v")),
      (("websites"), PyVal.list [PyVal.str ("hospitalogy")])])
    (by rfl)

/-- C8, counterexample: the element `" hospitalogy "` does not
case-insensitively match any known scraper key (it carries surrounding
spaces) and fails `validate_url`, so under the claim the config should be
rejected — but `validate_json_config` compares after stripping and accepts
it, and also stores it stripped rather than as-is. -/
theorem C8_websites_counterexample :
    KNOWN_WEBSITE_KEYS.contains (pyLower (" hospitalogy ")) = false ∧
    (validate_url (" hospitalogy ")).isOk = false ∧
    validate_json_config
        (.dict [(("websites"), .list [.str (" hospitalogy ")])]) =
      .ok (.dict [(("websites"), .list [.str ("hospitalogy")])]) :=
  ⟨by decide, by rfl, by rfl⟩

/-- C8, amended: unknown top-level keys never make `validate_json_config`
fail; an element whose whitespace-stripped, lower-cased form equals a known
scraper key is accepted in stripped (case-preserved) form; any other
element goes through `validate_url` and its failure propagates; the two
concrete examples of the claim hold as stated. -/
theorem C8_websites_amended :
    (∀ entries, lookupPy entries ("websites") = none →
      validate_json_config (.dict entries) = .ok (.dict entries)) ∧
    (∀ u : String, KNOWN_WEBSITE_KEYS.contains (pyLower (pyStrip u)) = false →
      (validate_url u).isOk = false →
      (validate_json_config (.dict [(("websites"), .list [.str u])])).isOk = false) ∧
    (∀ u : String, KNOWN_WEBSITE_KEYS.contains (pyLower (pyStrip u)) = true →
      validate_json_config (.dict [(("websites"), .list [.str u])]) =
        .ok (.dict [(("websites"), .list [.str (pyStrip u)])])) ∧
    validate_json_config (.dict [(("websites"),
        .list [.str ("hospitalogy"), .str ("https://example.com/")])]) =
      .ok (.dict [(("websites"),
        .list [.str ("hospitalogy"), .str ("https://example.com/")])]) ∧
    (validate_json_config
        (.dict [(("websites"), .list [.str ("not-a-url-or-known-key")])])).isOk = false := by
  refine ⟨?_, ?_, ?_, by rfl, by rfl⟩
  · intro entries hw
    simp only [validate_json_config, hw]
  · intro u hknown hurl
    have herr : ∃ e, validate_url u = .error e := by
      rcases hu : validate_url u with e | v
      · exact ⟨e, rfl⟩
      · rw [hu] at hurl
        cases hurl
    obtain ⟨e, he⟩ := herr
    have hknown2 : pyLower (pyStrip u) ∉ KNOWN_WEBSITE_KEYS := by simpa using hknown
    simp [validate_json_config, lookupPy, List.find?, validate_websites,
      validate_website_entry, hknown2, he, Except.map, Except.isOk, Except.toBool]
  · intro u hknown
    have hknown2 : pyLower (pyStrip u) ∈ KNOWN_WEBSITE_KEYS := by simpa using hknown
    simp [validate_json_config, lookupPy, List.find?, validate_websites,
      validate_website_entry, hknown2, Except.map, updateEntry]

/-- C8 witness: a config with no `websites` key whose only key is outside
the allow-list is returned unchanged rather than rejected. -/
theorem C8_websites_amended_witness :
    validate_json_config (.dict [(("unexpected"), PyVal.str ("k"))]) =
      .ok (.dict [(("unexpected"), PyVal.str ("k"))]) :=
  C8_websites_amended.1 [(("unexpected"), PyVal.str ("k"))] (by rfl)

/-- C6: from a fresh `RateLimiter(max_requests=3, time_window=60)`, with all
call times inside one window, four `is_allowed("a")` calls answer
`true, true, true, false`, and one `is_allowed("b")` call interleaved at any
position answers `true` without disturbing the `"a"` answers: counters are
independent per identifier. -/
theorem C6_rate_limiter (k : Nat) (hk : k ≤ 4) (T t1 t2 t3 t4 s : Int)
    (h1a : T ≤ t1) (h1b : t1 < T + 60) (h2a : T ≤ t2) (h2b : t2 < T + 60)
    (h3a : T ≤ t3) (h3b : t3 < T + 60) (h4a : T ≤ t4) (h4b : t4 < T + 60)
    (hsa : T ≤ s) (hsb : s < T + 60) :
    (runCalls ⟨3, 60, []⟩ (insertAt k (("b"), s)
      [(("a"), t1), (("a"), t2), (("a"), t3), (("a"), t4)])).1 =
      insertAt k true [true, true, true, false] := by
  have d : ∀ x y : Int, T ≤ x → x < T + 60 → T ≤ y → y < T + 60 →
      (decide (x - y < (60:Int)) = true) := by
    intro x y hx1 hx2 hy1 hy2
    exact decide_eq_true (by omega)
  interval_cases k <;>
    simp [insertAt, runCalls, is_allowed, rlLookup, rlUpdate,
      d t2 t1 h2a h2b h1a h1b, d t3 t1 h3a h3b h1a h1b, d t4 t1 h4a h4b h1a h1b,
      d s t1 hsa hsb h1a h1b, d t1 s h1a h1b hsa hsb, d t2 s h2a h2b hsa hsb,
      d t3 s h3a h3b hsa hsb, d t4 s h4a h4b hsa hsb]

/-- C6 witness: a concrete run with the `"b"` call inserted between the
second and third `"a"` calls. -/
theorem C6_rate_limiter_witness :
    (runCalls ⟨3, 60, []⟩ (insertAt 2 (("b"), 5)
      [(("a"), 0), (("a"), 1), (("a"), 2), (("a"), 3)])).1 =
      insertAt 2 true [true, true, true, false] :=
  C6_rate_limiter 2 (by decide) 0 0 1 2 3 5 (by decide) (by decide) (by decide)
    (by decide) (by decide) (by decide) (by decide) (by decide) (by decide) (by decide)

end NewsletterSec
